import Mathlib

/-!
Verification of the drift-and-anomaly analysis engine.

The numeric code is embedded over exact arithmetic: grid values and drift
values are rationals (every machine float value is a rational, and the
operations involved on this path are subtraction, comparison, absolute value
and sorting, all exact), while the isolation-style scorer and the harmonic
decomposer, which use logarithms, powers and complex exponentials, are
embedded over the reals and complexes.  JavaScript typed arrays are embedded
as lists; out-of-range reads use an explicit default that is never reached
under the documented length invariants.
-/

namespace OranDrishti

/-- A decoded raster: width, height, a flat pixel buffer and cached
min and max, as produced by the GeoTIFF loader. -/
structure RasterData where
  width : Nat
  height : Nat
  data : List ℚ
  min : ℚ
  max : ℚ

/-- Pixel-wise drift between two rasters.  Throws (here: returns an error)
when the dimensions differ; otherwise drift i = present i - past i over the
length of the past buffer, both values cast to a common representation
(exact rationals here, a shared floating-point type in the source). -/
def calculateDrift (past present : RasterData) : Except String (List ℚ) :=
  if past.width ≠ present.width ∨ past.height ≠ present.height then
    Except.error "Image dimensions do not match"
  else
    Except.ok ((List.range past.data.length).map
      fun i => present.data.getD i 0 - past.data.getD i 0)

/-- The statistics record of the Median/MAD detector. -/
structure MADStats where
  median : ℚ
  mad : ℚ
  limit : ℚ
deriving DecidableEq

/-- The result record of the Median/MAD detector. -/
structure MADResult where
  anomalies : List Nat
  count : Nat
  stats : MADStats
deriving DecidableEq

/-- The sample the Median/MAD detector computes its statistics on: the full
drift array, unless it holds more than 1,000,000 entries, in which case
100,000 random entries are drawn with replacement.  The random index choice
is an explicit oracle argument. -/
def madSample (rnd : Nat → Nat) (drift : List ℚ) : List ℚ :=
  if drift.length > 1000000 then
    (List.range 100000).map fun i => drift.getD (rnd i % drift.length) 0
  else drift

/-- Robust anomaly detection using Median / MAD (the detectAnomalies of the
Median/MAD variant of the engine): sort a sample, take the lower-middle
median, take the median of absolute deviations with the same index, guard a
zero MAD with the epsilon 0.01, and flag every drift entry below
median - 3 * MAD. -/
def detectAnomaliesMAD (rnd : Nat → Nat) (drift : List ℚ) : MADResult :=
  let sample := madSample rnd drift
  let sorted := sample.mergeSort fun a b => decide (a ≤ b)
  let mid := sorted.length / 2
  let median := sorted.getD mid 0
  let deviations := (sorted.map fun x => |x - median|).mergeSort fun a b => decide (a ≤ b)
  let mad := deviations.getD mid 0
  let robustMad := if mad = 0 then 0.01 else mad
  let limit := median - 3 * robustMad
  let anomalies := drift.map fun v => if v < limit then 1 else 0
  { anomalies := anomalies, count := anomalies.sum,
    stats := { median := median, mad := mad, limit := limit } }

/-- Surya-Sakshi: a candidate anomaly is volumetric (a pit rather than a
surface tone change) when the sun is high and the anomaly score stays
strong. -/
def validateShadowDepth (sunAltitude anomalyScore : ℚ) : Bool :=
  decide (sunAltitude > 30) && decide (anomalyScore > 0.5)

/-! ### Helper lemmas -/

lemma getD_range_map {β : Type} (f : Nat → β) (n i : Nat) (d : β) (h : i < n) :
    ((List.range n).map f).getD i d = f i := by
  rw [List.getD_eq_getElem?_getD]
  simp [List.getElem?_map, List.getElem?_range, h]

lemma getD_map_of_lt {α β : Type} (f : α → β) (l : List α) (i : Nat) (d : β) (e : α)
    (h : i < l.length) :
    (l.map f).getD i d = f (l.getD i e) := by
  rw [List.getD_eq_getElem?_getD, List.getD_eq_getElem?_getD]
  simp [List.getElem?_map, List.getElem?_eq_getElem h]

lemma sum_indicator_eq_count_one (l : List ℚ) (lim : ℚ) :
    (l.map fun v => if v < lim then 1 else 0).sum
      = (l.map fun v => if v < lim then 1 else 0).count 1 := by
  induction l with
  | nil => simp
  | cons a t ih =>
    by_cases h : a < lim <;> simp [h, ih, List.count_cons, Nat.add_comm]

/-- The anomaly mask of the Median/MAD detector, with the limit written
through the statistics record (definitional unfolding). -/
lemma detectAnomaliesMAD_anomalies_eq (rnd : Nat → Nat) (drift : List ℚ) :
    (detectAnomaliesMAD rnd drift).anomalies
      = drift.map fun v =>
          if v < (detectAnomaliesMAD rnd drift).stats.limit then 1 else 0 := rfl

lemma detectAnomaliesMAD_count_eq (rnd : Nat → Nat) (drift : List ℚ) :
    (detectAnomaliesMAD rnd drift).count
      = (detectAnomaliesMAD rnd drift).anomalies.sum := rfl

lemma detectAnomaliesMAD_median_eq (rnd : Nat → Nat) (drift : List ℚ) :
    (detectAnomaliesMAD rnd drift).stats.median
      = ((madSample rnd drift).mergeSort fun a b => decide (a ≤ b)).getD
          (((madSample rnd drift).mergeSort fun a b => decide (a ≤ b)).length / 2) 0 := rfl

lemma detectAnomaliesMAD_mad_eq (rnd : Nat → Nat) (drift : List ℚ) :
    (detectAnomaliesMAD rnd drift).stats.mad
      = ((((madSample rnd drift).mergeSort fun a b => decide (a ≤ b)).map
            fun x => |x - (detectAnomaliesMAD rnd drift).stats.median|).mergeSort
          fun a b => decide (a ≤ b)).getD
          (((madSample rnd drift).mergeSort fun a b => decide (a ≤ b)).length / 2) 0 := rfl

/-! ### Claim C1 -/

/-- C1: calculateDrift fails with a shape-mismatch error, producing no
output, exactly when the two grids differ in width or height; when widths
and heights agree it returns a drift array with, at every index i, the value
present i - past i in the common exact representation. -/
theorem calculateDrift_shape_contract (past present : RasterData)
    (hinvp : past.data.length = past.width * past.height)
    (hinvq : present.data.length = present.width * present.height) :
    (¬(past.width = present.width ∧ past.height = present.height) →
        calculateDrift past present = Except.error "Image dimensions do not match") ∧
    ((past.width = present.width ∧ past.height = present.height) →
        ∃ drift, calculateDrift past present = Except.ok drift ∧
          drift.length = past.data.length ∧
          drift.length = present.data.length ∧
          ∀ i, i < drift.length →
            drift.getD i 0 = present.data.getD i 0 - past.data.getD i 0) := by
  constructor
  · intro hne
    rw [calculateDrift, if_pos]
    by_contra hc
    push_neg at hc
    exact hne ⟨hc.1, hc.2⟩
  · rintro ⟨hw, hh⟩
    refine ⟨(List.range past.data.length).map
      fun i => present.data.getD i 0 - past.data.getD i 0, ?_, ?_, ?_, ?_⟩
    · rw [calculateDrift, if_neg (by push_neg; exact ⟨hw, hh⟩)]
    · simp
    · simp [hinvp, hinvq, hw, hh]
    · intro i hi
      simp only [List.length_map, List.length_range] at hi
      exact getD_range_map _ _ _ _ hi

/-- Witness for C1 at concrete one-pixel grids. -/
theorem calculateDrift_shape_contract_witness :
    (RasterData.mk 1 1 [2] 2 2).data.length
        = (RasterData.mk 1 1 [2] 2 2).width * (RasterData.mk 1 1 [2] 2 2).height ∧
    (RasterData.mk 1 1 [5] 5 5).data.length
        = (RasterData.mk 1 1 [5] 5 5).width * (RasterData.mk 1 1 [5] 5 5).height ∧
    ((¬((RasterData.mk 1 1 [2] 2 2).width = (RasterData.mk 1 1 [5] 5 5).width ∧
          (RasterData.mk 1 1 [2] 2 2).height = (RasterData.mk 1 1 [5] 5 5).height) →
        calculateDrift (RasterData.mk 1 1 [2] 2 2) (RasterData.mk 1 1 [5] 5 5)
          = Except.error "Image dimensions do not match") ∧
      (((RasterData.mk 1 1 [2] 2 2).width = (RasterData.mk 1 1 [5] 5 5).width ∧
          (RasterData.mk 1 1 [2] 2 2).height = (RasterData.mk 1 1 [5] 5 5).height) →
        ∃ drift, calculateDrift (RasterData.mk 1 1 [2] 2 2) (RasterData.mk 1 1 [5] 5 5)
            = Except.ok drift ∧
          drift.length = (RasterData.mk 1 1 [2] 2 2).data.length ∧
          drift.length = (RasterData.mk 1 1 [5] 5 5).data.length ∧
          ∀ i, i < drift.length →
            drift.getD i 0 = (RasterData.mk 1 1 [5] 5 5).data.getD i 0
              - (RasterData.mk 1 1 [2] 2 2).data.getD i 0)) :=
  ⟨by decide, by decide,
    calculateDrift_shape_contract (RasterData.mk 1 1 [2] 2 2) (RasterData.mk 1 1 [5] 5 5)
      (by decide) (by decide)⟩

/-! ### Claim C6 -/

/-- C6: drift is self-cancelling and antisymmetric: drift of a grid against
itself is the zero array, and for equal-shaped grids drift A B is the
pointwise negation of drift B A. -/
theorem calculateDrift_antisymm (A B : RasterData)
    (hinvA : A.data.length = A.width * A.height)
    (hinvB : B.data.length = B.width * B.height)
    (hw : A.width = B.width) (hh : A.height = B.height) :
    calculateDrift A A = Except.ok (List.replicate A.data.length 0) ∧
    ∃ dAB dBA, calculateDrift A B = Except.ok dAB ∧
      calculateDrift B A = Except.ok dBA ∧
      dAB.length = dBA.length ∧
      ∀ i, dAB.getD i 0 = -(dBA.getD i 0) := by
  have hlen : A.data.length = B.data.length := by rw [hinvA, hinvB, hw, hh]
  refine ⟨?_, ?_⟩
  · rw [calculateDrift, if_neg (by push_neg; exact ⟨rfl, rfl⟩)]
    congr 1
    refine List.eq_replicate_iff.mpr ⟨by simp, ?_⟩
    intro b hb
    simp only [List.mem_map] at hb
    obtain ⟨i, _, hbi⟩ := hb
    rw [← hbi, sub_self]
  · have hAB : calculateDrift A B = Except.ok ((List.range A.data.length).map
        fun i => B.data.getD i 0 - A.data.getD i 0) := by
      rw [calculateDrift, if_neg (by push_neg; exact ⟨hw, hh⟩)]
    have hBA : calculateDrift B A = Except.ok ((List.range B.data.length).map
        fun i => A.data.getD i 0 - B.data.getD i 0) := by
      rw [calculateDrift, if_neg (by push_neg; exact ⟨hw.symm, hh.symm⟩)]
    refine ⟨_, _, hAB, hBA, by simp [hlen], ?_⟩
    intro i
    by_cases hi : i < A.data.length
    · rw [getD_range_map _ _ _ _ hi, getD_range_map _ _ _ _ (hlen ▸ hi)]
      ring
    · push_neg at hi
      rw [List.getD_eq_default, List.getD_eq_default]
      · ring
      · simpa [← hlen] using hi
      · simpa using hi

/-- Witness for C6 at concrete grids. -/
theorem calculateDrift_antisymm_witness :
    calculateDrift (RasterData.mk 1 2 [1, 4] 1 4) (RasterData.mk 1 2 [1, 4] 1 4)
        = Except.ok (List.replicate (RasterData.mk 1 2 [1, 4] 1 4).data.length 0) ∧
    ∃ dAB dBA,
      calculateDrift (RasterData.mk 1 2 [1, 4] 1 4) (RasterData.mk 1 2 [3, 0] 0 3)
          = Except.ok dAB ∧
      calculateDrift (RasterData.mk 1 2 [3, 0] 0 3) (RasterData.mk 1 2 [1, 4] 1 4)
          = Except.ok dBA ∧
      dAB.length = dBA.length ∧
      ∀ i, dAB.getD i 0 = -(dBA.getD i 0) :=
  calculateDrift_antisymm (RasterData.mk 1 2 [1, 4] 1 4) (RasterData.mk 1 2 [3, 0] 0 3)
    (by decide) (by decide) (by decide) (by decide)

/-! ### Claim C2 -/

/-- C2: the Median/MAD detector flags exactly the indices whose drift lies
strictly below limit = median - 3 * MAD_effective, where MAD_effective is
the computed MAD when nonzero and the fixed epsilon 0.01 otherwise; no index
at or above the limit is flagged, and the returned count is the number of
flagged entries. -/
theorem detectAnomaliesMAD_mask_spec (rnd : Nat → Nat) (drift : List ℚ) :
    (detectAnomaliesMAD rnd drift).stats.limit
        = (detectAnomaliesMAD rnd drift).stats.median
            - 3 * (if (detectAnomaliesMAD rnd drift).stats.mad = 0 then 0.01
                   else (detectAnomaliesMAD rnd drift).stats.mad) ∧
    (detectAnomaliesMAD rnd drift).anomalies.length = drift.length ∧
    (∀ i, i < drift.length →
      ((detectAnomaliesMAD rnd drift).anomalies.getD i 0 = 1 ↔
        drift.getD i 0 < (detectAnomaliesMAD rnd drift).stats.limit)) ∧
    (∀ i, i < drift.length →
      (detectAnomaliesMAD rnd drift).stats.limit ≤ drift.getD i 0 →
        (detectAnomaliesMAD rnd drift).anomalies.getD i 0 = 0) ∧
    (detectAnomaliesMAD rnd drift).count
        = (detectAnomaliesMAD rnd drift).anomalies.count 1 := by
  refine ⟨rfl, by rw [detectAnomaliesMAD_anomalies_eq]; simp, ?_, ?_, ?_⟩
  · intro i hi
    rw [detectAnomaliesMAD_anomalies_eq, getD_map_of_lt _ _ _ _ 0 hi]
    constructor
    · intro h1
      by_contra hge
      rw [if_neg hge] at h1
      exact absurd h1 (by norm_num)
    · intro hlt
      rw [if_pos hlt]
  · intro i hi hge
    rw [detectAnomaliesMAD_anomalies_eq, getD_map_of_lt _ _ _ _ 0 hi,
      if_neg (not_lt.mpr hge)]
  · rw [detectAnomaliesMAD_count_eq, detectAnomaliesMAD_anomalies_eq]
    exact sum_indicator_eq_count_one drift _

/-- Witness for C2: instantiates the per-index biconditional at a concrete
drift array and index. -/
theorem detectAnomaliesMAD_mask_spec_witness :
    (0 < [(-1 : ℚ), 0, 2].length) ∧
    ((detectAnomaliesMAD (fun n => n) [(-1 : ℚ), 0, 2]).anomalies.getD 0 0 = 1 ↔
      [(-1 : ℚ), 0, 2].getD 0 0
        < (detectAnomaliesMAD (fun n => n) [(-1 : ℚ), 0, 2]).stats.limit) :=
  ⟨by decide, (detectAnomaliesMAD_mask_spec (fun n => n) [(-1 : ℚ), 0, 2]).2.2.1 0 (by decide)⟩

/-! ### Claim C7 -/

/-- C7: the Median/MAD detector computes its median as the lower-middle
element, at index floor(n/2) of the ascending sort of the sample, and its
MAD as the median of the absolute deviations from that median over the same
sample, at the identical index. -/
theorem detectAnomaliesMAD_median_rule (rnd : Nat → Nat) (drift : List ℚ) :
    ∃ sorted devs : List ℚ,
      sorted.Perm (madSample rnd drift) ∧
      sorted.Sorted (· ≤ ·) ∧
      (detectAnomaliesMAD rnd drift).stats.median
        = sorted.getD ((madSample rnd drift).length / 2) 0 ∧
      devs.Perm ((madSample rnd drift).map
        fun x => |x - (detectAnomaliesMAD rnd drift).stats.median|) ∧
      devs.Sorted (· ≤ ·) ∧
      devs.length = (madSample rnd drift).length ∧
      (detectAnomaliesMAD rnd drift).stats.mad
        = devs.getD ((madSample rnd drift).length / 2) 0 := by
  have htrans : ∀ a b c : ℚ, decide (a ≤ b) = true → decide (b ≤ c) = true →
      decide (a ≤ c) = true := by
    intro a b c hab hbc
    simp only [decide_eq_true_eq] at *
    exact le_trans hab hbc
  have htotal : ∀ a b : ℚ, (decide (a ≤ b) || decide (b ≤ a)) = true := by
    intro a b
    simpa using le_total a b
  refine ⟨(madSample rnd drift).mergeSort (fun a b => decide (a ≤ b)),
    (((madSample rnd drift).mergeSort (fun a b => decide (a ≤ b))).map
        fun x => |x - (detectAnomaliesMAD rnd drift).stats.median|).mergeSort
      (fun a b => decide (a ≤ b)), ?_, ?_, ?_, ?_, ?_, ?_, ?_⟩
  · exact List.mergeSort_perm _ _
  · exact List.Pairwise.imp (fun h => by simpa using h)
      (List.sorted_mergeSort htrans htotal _)
  · rw [detectAnomaliesMAD_median_eq,
      (List.mergeSort_perm (madSample rnd drift) _).length_eq]
  · exact ((List.mergeSort_perm _ _).trans
      (List.Perm.map _ (List.mergeSort_perm _ _)))
  · exact List.Pairwise.imp (fun h => by simpa using h)
      (List.sorted_mergeSort htrans htotal _)
  · rw [(List.mergeSort_perm _ _).length_eq, List.length_map,
      (List.mergeSort_perm _ _).length_eq]
  · rw [detectAnomaliesMAD_mad_eq,
      (List.mergeSort_perm (madSample rnd drift) _).length_eq]

/-! ### Claim C10 -/

/-- C10: on drift arrays of at most 1,000,000 entries the Median/MAD
detector never subsamples, so its output does not depend on the random
oracle: two invocations with different randomness agree exactly. -/
theorem detectAnomaliesMAD_deterministic (r1 r2 : Nat → Nat) (drift : List ℚ)
    (h : drift.length ≤ 1000000) :
    detectAnomaliesMAD r1 drift = detectAnomaliesMAD r2 drift := by
  have hs : ∀ r : Nat → Nat, madSample r drift = drift := by
    intro r
    rw [madSample, if_neg (by omega)]
  rw [detectAnomaliesMAD, detectAnomaliesMAD, hs r1, hs r2]

/-- Witness for C10 at a concrete small drift array and two different
oracles. -/
theorem detectAnomaliesMAD_deterministic_witness :
    ([(-1 : ℚ), 4, 2].length ≤ 1000000) ∧
    detectAnomaliesMAD (fun n => n) [(-1 : ℚ), 4, 2]
      = detectAnomaliesMAD (fun _ => 0) [(-1 : ℚ), 4, 2] :=
  ⟨by decide, detectAnomaliesMAD_deterministic (fun n => n) (fun _ => 0)
    [(-1 : ℚ), 4, 2] (by decide)⟩

/-! ### Claim C5 -/

/-- C5: validateShadowDepth is true exactly when the solar altitude exceeds
30 degrees and the anomaly score exceeds 0.5, and in particular on the three
documented example inputs. -/
theorem validateShadowDepth_spec :
    (∀ a s : ℚ, validateShadowDepth a s = true ↔ (30 < a ∧ 0.5 < s)) ∧
    validateShadowDepth 35 0.6 = true ∧
    validateShadowDepth 10 0.9 = false ∧
    validateShadowDepth 40 0.3 = false := by
  refine ⟨?_, by norm_num [validateShadowDepth], by norm_num [validateShadowDepth],
    by norm_num [validateShadowDepth]⟩
  intro a s
  rw [validateShadowDepth]
  simp [gt_iff_lt]

/-! ### Isolation-style ensemble scorer

The isolation-forest variant of detectAnomalies.  The random subsample
indices and the random split fractions are explicit oracle arguments, so
every theorem below quantifies over every possible outcome of the random
choices.  The minScore/maxScore bookkeeping of the source, which no claim
references, is not modelled; the mask, count and threshold are. -/

/-- A random binary partition tree: leaves store the partition size. -/
inductive ITree where
  | leaf (size : Nat)
  | node (splitValue : ℝ) (left : ITree) (right : ITree)

/-- The c(size) size-correction term of the scorer, with the source's
literal Euler-Mascheroni constant. -/
noncomputable def cFactor (size : Nat) : ℝ :=
  if size ≤ 1 then 0
  else 2 * (Real.log ((size : ℝ) - 1) + 0.5772156649) - 2 * ((size : ℝ) - 1) / size

open Classical in
/-- Path length of a value through a tree: descend left on v < splitValue,
else right, and add the size correction at the leaf. -/
noncomputable def pathLength (v : ℝ) : ITree → Nat → ℝ
  | ITree.leaf m, depth => depth + cFactor m
  | ITree.node sv l r, depth =>
      if v < sv then pathLength v l (depth + 1) else pathLength v r (depth + 1)

open Classical in
/-- Grow a random tree on a partition: stop at the height limit, on a
partition of at most one element, or on a constant partition; otherwise
split at a random value between min and max.  rsp is the stream of random
fractions, consumed at the threaded counter. -/
noncomputable def buildTree (rsp : Nat → ℝ) (heightLimit : Nat) (data : List ℝ)
    (depth ctr : Nat) : ITree × Nat :=
  if h : heightLimit ≤ depth ∨ data.length ≤ 1 then (ITree.leaf data.length, ctr)
  else
    let mn := data.min?.getD 0
    let mx := data.max?.getD 0
    if mn = mx then (ITree.leaf data.length, ctr)
    else
      let splitValue := mn + rsp ctr * (mx - mn)
      let lres := buildTree rsp heightLimit
        (data.filter fun x => decide (x < splitValue)) (depth + 1) (ctr + 1)
      let rres := buildTree rsp heightLimit
        (data.filter fun x => decide (¬ x < splitValue)) (depth + 1) lres.2
      (ITree.node splitValue lres.1 rres.1, rres.2)
termination_by heightLimit - depth
decreasing_by
  all_goals push_neg at h; omega

/-- The random subsample (drawn with replacement) a single tree is grown
on; ridx t j is the random index the oracle draws for tree t, slot j. -/
noncomputable def isoSubSample (ridx : Nat → Nat → Nat) (drift : List ℝ) (t : Nat) :
    List ℝ :=
  (List.range (min drift.length 256)).map
    fun j => drift.getD (ridx t j % drift.length) 0

/-- The forest: 10 trees, each grown to height limit ceil(log2 S) on its own
subsample of size S = min(N, 256). -/
noncomputable def isoForest (ridx : Nat → Nat → Nat) (rsp : Nat → Nat → ℝ)
    (drift : List ℝ) : List ITree :=
  (List.range 10).map fun t =>
    (buildTree (rsp t) (Nat.clog 2 (min drift.length 256))
      (isoSubSample ridx drift t) 0 0).1

/-- The anomaly score of a value: 2 to the minus (average path length over
the 10 trees divided by c(S)).  This exact-arithmetic form is meaningful
only when the divisor c(S) is nonzero; isoScoreVal below checks that. -/
noncomputable def isoScore (forest : List ITree) (subSampleSize : Nat) (v : ℝ) : ℝ :=
  (2 : ℝ) ^ (-(((forest.map fun tr => pathLength v tr 0).sum / 10)
    / cFactor subSampleSize))

open Classical in
/-- The score with the source's floating-point division semantics made
explicit.  The source computes Math.pow(2, -avgPathLen / c(S)).  When
c(S) = 0 (subsample size at most 1, so every tree is a bare leaf of size
at most 1 and every path length is 0) the IEEE quotient -0 / 0 is NaN and
the power is NaN: no real score exists, modelled as none.  A zero divisor
with a nonzero average would give an infinite exponent (score 0 for a
positive average, an infinite power for a negative one, which no real
models); with a nonzero divisor the quotient is the exact real quotient
and the score is the isoScore value. -/
noncomputable def isoScoreVal (forest : List ITree) (subSampleSize : Nat) (v : ℝ) :
    Option ℝ :=
  let avg := (forest.map fun tr => pathLength v tr 0).sum / 10
  if cFactor subSampleSize = 0 then
    if avg = 0 then none
    else if 0 < avg then some 0
    else none
  else some ((2 : ℝ) ^ (-(avg / cFactor subSampleSize)))

/-- The result record of the isolation-style detector. -/
structure IsoResult where
  anomalies : List Nat
  count : Nat
  threshold : ℝ

open Classical in
/-- Isolation-forest anomaly detection: flag index i when its score exceeds
the threshold 0.65 and its drift is below -0.05. -/
noncomputable def detectAnomaliesIso (ridx : Nat → Nat → Nat) (rsp : Nat → Nat → ℝ)
    (drift : List ℝ) : IsoResult :=
  let forest := isoForest ridx rsp drift
  let anomalies := (List.range drift.length).map fun i =>
    if isoScore forest (min drift.length 256) (drift.getD i 0) > 0.65 ∧
        drift.getD i 0 < -0.05
    then 1 else 0
  { anomalies := anomalies, count := anomalies.sum, threshold := 0.65 }

open Classical in
lemma detectAnomaliesIso_anomalies_eq (ridx : Nat → Nat → Nat) (rsp : Nat → Nat → ℝ)
    (drift : List ℝ) :
    (detectAnomaliesIso ridx rsp drift).anomalies
      = (List.range drift.length).map fun i =>
          if isoScore (isoForest ridx rsp drift) (min drift.length 256)
                (drift.getD i 0) > 0.65 ∧ drift.getD i 0 < -0.05
          then 1 else 0 := rfl

lemma detectAnomaliesIso_count_eq (ridx : Nat → Nat → Nat) (rsp : Nat → Nat → ℝ)
    (drift : List ℝ) :
    (detectAnomaliesIso ridx rsp drift).count
      = (detectAnomaliesIso ridx rsp drift).anomalies.sum := rfl

lemma getD_mem_of_lt {α : Type} (l : List α) (i : Nat) (d : α) (h : i < l.length) :
    l.getD i d ∈ l := by
  rw [List.getD_eq_getElem?_getD, List.getElem?_eq_getElem h]
  exact List.getElem_mem h

lemma cFactor_nonneg (m : Nat) : 0 ≤ cFactor m := by
  rw [cFactor]
  split
  · exact le_refl 0
  · rename_i hm
    push_neg at hm
    by_cases h2 : m = 2
    · subst h2
      norm_num
    · have h3 : 3 ≤ m := by omega
      have hcast : (2 : ℝ) ≤ (m : ℝ) - 1 := by
        have : (3 : ℝ) ≤ (m : ℝ) := by exact_mod_cast h3
        linarith
      have hlog : Real.log 2 ≤ Real.log ((m : ℝ) - 1) :=
        Real.log_le_log (by norm_num) hcast
      have hlog2 : (0.6931471803 : ℝ) < Real.log 2 := Real.log_two_gt_d9
      have hm0 : (0 : ℝ) < (m : ℝ) := by
        have : (3 : ℝ) ≤ (m : ℝ) := by exact_mod_cast h3
        linarith
      have hfrac : 2 * ((m : ℝ) - 1) / m ≤ 2 := by
        rw [div_le_iff₀ hm0]
        linarith
      linarith

lemma cFactor_pos (m : Nat) (hm : 2 ≤ m) : 0 < cFactor m := by
  rw [cFactor, if_neg (by omega)]
  by_cases h2 : m = 2
  · subst h2
    norm_num
  · have h3 : 3 ≤ m := by omega
    have hcast : (2 : ℝ) ≤ (m : ℝ) - 1 := by
      have : (3 : ℝ) ≤ (m : ℝ) := by exact_mod_cast h3
      linarith
    have hlog : Real.log 2 ≤ Real.log ((m : ℝ) - 1) :=
      Real.log_le_log (by norm_num) hcast
    have hlog2 : (0.6931471803 : ℝ) < Real.log 2 := Real.log_two_gt_d9
    have hm0 : (0 : ℝ) < (m : ℝ) := by
      have : (3 : ℝ) ≤ (m : ℝ) := by exact_mod_cast h3
      linarith
    have hfrac : 2 * ((m : ℝ) - 1) / m ≤ 2 := by
      rw [div_le_iff₀ hm0]
      linarith
    linarith

lemma pathLength_nonneg (v : ℝ) : ∀ (t : ITree) (d : Nat), 0 ≤ pathLength v t d := by
  intro t
  induction t with
  | leaf m =>
    intro d
    rw [pathLength]
    exact add_nonneg (Nat.cast_nonneg d) (cFactor_nonneg m)
  | node sv l r ihl ihr =>
    intro d
    rw [pathLength]
    split
    · exact ihl (d + 1)
    · exact ihr (d + 1)

/-! ### Claim C3 -/

/-- C3: for every outcome of the random choices, every index the
isolation-style detector flags has score above 0.65 and drift below -0.05;
in particular, on a drift array whose entries are all at least -0.05 the
mask is all zeros and the count is zero, whatever the scores are. -/
theorem detectAnomaliesIso_sign_gate (ridx : Nat → Nat → Nat) (rsp : Nat → Nat → ℝ)
    (drift : List ℝ) :
    (∀ i, i < drift.length →
      (detectAnomaliesIso ridx rsp drift).anomalies.getD i 0 = 1 →
        0.65 < isoScore (isoForest ridx rsp drift) (min drift.length 256)
            (drift.getD i 0) ∧
        drift.getD i 0 < -0.05) ∧
    ((∀ v ∈ drift, -0.05 ≤ v) →
      (detectAnomaliesIso ridx rsp drift).anomalies
          = List.replicate drift.length 0 ∧
      (detectAnomaliesIso ridx rsp drift).count = 0) := by
  have hmask : ∀ i, i < drift.length →
      (detectAnomaliesIso ridx rsp drift).anomalies.getD i 0
        = if isoScore (isoForest ridx rsp drift) (min drift.length 256)
              (drift.getD i 0) > 0.65 ∧ drift.getD i 0 < -0.05
          then 1 else 0 := by
    intro i hi
    rw [detectAnomaliesIso_anomalies_eq, getD_range_map _ _ _ _ hi]
  constructor
  · intro i hi h1
    rw [hmask i hi] at h1
    by_cases hc : isoScore (isoForest ridx rsp drift) (min drift.length 256)
        (drift.getD i 0) > 0.65 ∧ drift.getD i 0 < -0.05
    · exact hc
    · rw [if_neg hc] at h1
      exact absurd h1 (by norm_num)
  · intro hpos
    have hzero : (detectAnomaliesIso ridx rsp drift).anomalies
        = List.replicate drift.length 0 := by
      rw [detectAnomaliesIso_anomalies_eq]
      refine List.eq_replicate_iff.mpr ⟨by simp, ?_⟩
      intro b hb
      simp only [List.mem_map, List.mem_range] at hb
      obtain ⟨i, hi, hbi⟩ := hb
      rw [← hbi, if_neg]
      rintro ⟨-, hlt⟩
      exact absurd hlt (not_lt.mpr (hpos _ (getD_mem_of_lt drift i 0 hi)))
    refine ⟨hzero, ?_⟩
    rw [detectAnomaliesIso_count_eq, hzero]
    simp

/-! ### Claim C8 -/

/-- C8 (amended): for every drift array of length at least 2 and every
outcome of the random choices, the size correction c(S) of the subsample
size S = min(N, 256) is strictly positive, so the scorer assigns each
drift value the well-defined score
2 ^ (-(average path length over the 10 trees) / c(S)), a value in the
interval from 0 to 1.  For a length-1 array the exponent is the IEEE
quotient 0 / 0, so the source's score is NaN; see the counterexample. -/
theorem detectAnomaliesIso_score_range (ridx : Nat → Nat → Nat) (rsp : Nat → Nat → ℝ)
    (drift : List ℝ) (hlen : 2 ≤ drift.length) (i : Nat) (hi : i < drift.length) :
    0 < cFactor (min drift.length 256) ∧
    isoScoreVal (isoForest ridx rsp drift) (min drift.length 256) (drift.getD i 0)
        = some (isoScore (isoForest ridx rsp drift) (min drift.length 256)
            (drift.getD i 0)) ∧
    isoScore (isoForest ridx rsp drift) (min drift.length 256) (drift.getD i 0)
        = (2 : ℝ) ^ (-((((isoForest ridx rsp drift).map
              fun tr => pathLength (drift.getD i 0) tr 0).sum / 10)
            / cFactor (min drift.length 256))) ∧
    0 ≤ isoScore (isoForest ridx rsp drift) (min drift.length 256) (drift.getD i 0) ∧
    isoScore (isoForest ridx rsp drift) (min drift.length 256) (drift.getD i 0) ≤ 1 := by
  have hS2 : 2 ≤ min drift.length 256 := le_min hlen (by norm_num)
  have hc : 0 < cFactor (min drift.length 256) := cFactor_pos _ hS2
  have hsum : 0 ≤ ((isoForest ridx rsp drift).map
      fun tr => pathLength (drift.getD i 0) tr 0).sum := by
    apply List.sum_nonneg
    intro x hx
    simp only [List.mem_map] at hx
    obtain ⟨tr, -, htr⟩ := hx
    rw [← htr]
    exact pathLength_nonneg _ tr 0
  have hexp : -((((isoForest ridx rsp drift).map
        fun tr => pathLength (drift.getD i 0) tr 0).sum / 10)
      / cFactor (min drift.length 256)) ≤ 0 := by
    apply neg_nonpos.mpr
    exact div_nonneg (div_nonneg hsum (by norm_num)) (cFactor_nonneg _)
  refine ⟨hc, ?_, rfl, Real.rpow_nonneg (by norm_num) _,
    Real.rpow_le_one_of_one_le_of_nonpos (by norm_num) hexp⟩
  rw [isoScoreVal, if_neg (ne_of_gt hc)]
  rfl

/-- Witness for C8 at a two-element drift array and the constant-zero
random oracles. -/
theorem detectAnomaliesIso_score_range_witness :
    (2 ≤ [(-1 : ℝ), 4].length) ∧ (0 < [(-1 : ℝ), 4].length) ∧
    (0 < cFactor (min [(-1 : ℝ), 4].length 256) ∧
      isoScoreVal (isoForest (fun _ _ => 0) (fun _ _ => 0) [(-1 : ℝ), 4])
          (min [(-1 : ℝ), 4].length 256) ([(-1 : ℝ), 4].getD 0 0)
        = some (isoScore (isoForest (fun _ _ => 0) (fun _ _ => 0) [(-1 : ℝ), 4])
            (min [(-1 : ℝ), 4].length 256) ([(-1 : ℝ), 4].getD 0 0)) ∧
      isoScore (isoForest (fun _ _ => 0) (fun _ _ => 0) [(-1 : ℝ), 4])
          (min [(-1 : ℝ), 4].length 256) ([(-1 : ℝ), 4].getD 0 0)
        = (2 : ℝ) ^ (-((((isoForest (fun _ _ => 0) (fun _ _ => 0) [(-1 : ℝ), 4]).map
              fun tr => pathLength ([(-1 : ℝ), 4].getD 0 0) tr 0).sum / 10)
            / cFactor (min [(-1 : ℝ), 4].length 256))) ∧
      0 ≤ isoScore (isoForest (fun _ _ => 0) (fun _ _ => 0) [(-1 : ℝ), 4])
          (min [(-1 : ℝ), 4].length 256) ([(-1 : ℝ), 4].getD 0 0) ∧
      isoScore (isoForest (fun _ _ => 0) (fun _ _ => 0) [(-1 : ℝ), 4])
          (min [(-1 : ℝ), 4].length 256) ([(-1 : ℝ), 4].getD 0 0) ≤ 1) :=
  ⟨by simp, by simp,
    detectAnomaliesIso_score_range (fun _ _ => 0) (fun _ _ => 0) [(-1 : ℝ), 4]
      (by simp) 0 (by simp)⟩

/-- Counterexample to C8 as stated: at the one-element drift array the
subsample size is 1, c(1) = 0, every tree of the forest is a bare leaf of
size 1, so every path length is 0 and the source's exponent is the IEEE
quotient 0 / 0: the score is NaN, not a value in the interval from 0 to 1
(the checked score is none). -/
theorem detectAnomaliesIso_score_range_cex :
    cFactor (min [(-1 : ℝ)].length 256) = 0 ∧
    ((isoForest (fun _ _ => 0) (fun _ _ => 0) [(-1 : ℝ)]).map
        fun tr => pathLength ([(-1 : ℝ)].getD 0 0) tr 0).sum = 0 ∧
    isoScoreVal (isoForest (fun _ _ => 0) (fun _ _ => 0) [(-1 : ℝ)])
        (min [(-1 : ℝ)].length 256) ([(-1 : ℝ)].getD 0 0) = none := by
  have hmin : min [(-1 : ℝ)].length 256 = 1 := by norm_num
  have hc1 : cFactor 1 = 0 := by
    rw [cFactor, if_pos (le_refl 1)]
  have hcS : cFactor (min [(-1 : ℝ)].length 256) = 0 := by rw [hmin, hc1]
  have hsub : ∀ t : Nat, isoSubSample (fun _ _ => 0) [(-1 : ℝ)] t = [(-1 : ℝ)] := by
    intro t
    rw [isoSubSample, hmin]
    simp [List.range_succ]
  have htree : ∀ t : Nat,
      (buildTree ((fun _ _ => (0 : ℝ)) t) (Nat.clog 2 (min [(-1 : ℝ)].length 256))
        (isoSubSample (fun _ _ => 0) [(-1 : ℝ)] t) 0 0).1 = ITree.leaf 1 := by
    intro t
    rw [hsub t, buildTree, dif_pos (Or.inr (by simp))]
    rfl
  have hmap : ((isoForest (fun _ _ => 0) (fun _ _ => 0) [(-1 : ℝ)]).map
        fun tr => pathLength ([(-1 : ℝ)].getD 0 0) tr 0)
      = List.replicate 10 0 := by
    rw [isoForest, List.map_map]
    refine List.eq_replicate_iff.mpr ⟨by simp, ?_⟩
    intro b hb
    simp only [List.mem_map, List.mem_range, Function.comp] at hb
    obtain ⟨t, -, hbt⟩ := hb
    rw [← hbt, htree t, pathLength, hc1]
    norm_num
  have hsum : ((isoForest (fun _ _ => 0) (fun _ _ => 0) [(-1 : ℝ)]).map
      fun tr => pathLength ([(-1 : ℝ)].getD 0 0) tr 0).sum = 0 := by
    rw [hmap, List.sum_replicate]
    simp
  refine ⟨hcS, hsum, ?_⟩
  rw [isoScoreVal, if_pos hcS, if_pos (by rw [hsum]; norm_num)]

/-! ### Harmonic decomposer (Ritu-Chakra)

performHarmonicAnalysis embeds the FFT pipeline of the model engine: the
radix-2 transform of the external FFT library is modelled by the discrete
Fourier transform it computes, over exact complex arithmetic, with the
library's conventions (forward kernel exp(-2 pi i j k / P), unnormalized
inverse kernel exp(2 pi i j k / P), so the caller divides by P). -/

/-- One sample of an NDVI time series, as produced by the data simulator. -/
structure TimeSeriesPoint where
  date : String
  ndvi : ℝ
  viirs : ℝ
  seasonal : ℝ
  trend : ℝ
deriving Inhabited

/-- The primitive P-th root of unity exp(2 pi i / P) used by the DFT. -/
noncomputable def fftOmega (P : Nat) : ℂ :=
  Complex.exp (2 * (Real.pi : ℂ) * Complex.I / (P : ℂ))

/-- Forward DFT of size P (kernel exp(-2 pi i j k / P)). -/
noncomputable def dftForward (P : Nat) (x : Nat → ℂ) (k : Nat) : ℂ :=
  ∑ j ∈ Finset.range P, x j * ((fftOmega P)⁻¹) ^ (j * k)

/-- Unnormalized inverse DFT of size P (kernel exp(2 pi i j k / P)); the
caller divides by P. -/
noncomputable def dftInverse (P : Nat) (X : Nat → ℂ) (j : Nat) : ℂ :=
  ∑ k ∈ Finset.range P, X k * (fftOmega P) ^ (j * k)

/-- The FFT size: the next power of two at least the series length, with a
floor of 2 (Math.pow(2, Math.ceil(Math.log2 n)) guarded by Math.max(2, .)). -/
def fftSize (n : Nat) : Nat := max 2 (2 ^ Nat.clog 2 n)

/-- The complex input signal: the NDVI value at indices below the series
length, zero padding beyond it. -/
noncomputable def ndviSignal (history : List TimeSeriesPoint) (j : Nat) : ℂ :=
  (((history.map TimeSeriesPoint.ndvi).getD j 0 : ℝ) : ℂ)

/-- The low-pass filter: zero every frequency bin with index in
[cutoff, P - cutoff) for cutoff = 10, keep the rest. -/
noncomputable def cutoffFilter (P : Nat) (X : Nat → ℂ) (k : Nat) : ℂ :=
  if 10 ≤ k ∧ k < P - 10 then 0 else X k

/-- Filter 1, Ritu-Chakra: forward FFT of the zero-padded NDVI sequence,
low-pass filtering, unnormalized inverse FFT, division by the FFT size; the
real part replaces each point's seasonal estimate. -/
noncomputable def performHarmonicAnalysis (history : List TimeSeriesPoint) :
    List TimeSeriesPoint :=
  let P := fftSize history.length
  let filtered := cutoffFilter P (dftForward P (ndviSignal history))
  history.mapIdx fun i point =>
    { point with seasonal := (dftInverse P filtered i).re / P }

/-! ### DFT facts -/

lemma fftOmega_isPrimitiveRoot (P : Nat) (hP : P ≠ 0) :
    IsPrimitiveRoot (fftOmega P) P := by
  rw [fftOmega]
  exact Complex.isPrimitiveRoot_exp P hP

lemma fftOmega_ne_zero (P : Nat) : fftOmega P ≠ 0 := Complex.exp_ne_zero _

lemma fftOmega_pow_self (P : Nat) (hP : P ≠ 0) : fftOmega P ^ P = 1 :=
  (fftOmega_isPrimitiveRoot P hP).pow_eq_one

lemma fftOmega_conj (P : Nat) :
    (starRingEnd ℂ) (fftOmega P) = (fftOmega P)⁻¹ := by
  rw [fftOmega, ← Complex.exp_conj, ← Complex.exp_neg]
  congr 1
  rw [map_div₀, map_mul, map_mul, Complex.conj_I, Complex.conj_ofReal,
    map_ofNat, map_natCast]
  ring

lemma conj_fftOmega_inv_pow (P m : Nat) :
    (starRingEnd ℂ) (((fftOmega P)⁻¹) ^ m) = (fftOmega P) ^ m := by
  rw [map_pow, map_inv₀, fftOmega_conj, inv_inv]

/-- Orthogonality of the DFT kernels: the geometric sum of the ratio
omega^a * omega^(-b) over a full period is P on the diagonal and zero off
it. -/
lemma fftOmega_orth (P : Nat) (hP : P ≠ 0) (a b : Nat) (ha : a < P) (hb : b < P) :
    ∑ k ∈ Finset.range P, ((fftOmega P) ^ a * ((fftOmega P)⁻¹) ^ b) ^ k
      = if a = b then (P : ℂ) else 0 := by
  by_cases hab : a = b
  · subst hab
    rw [if_pos rfl]
    have h1 : (fftOmega P) ^ a * ((fftOmega P)⁻¹) ^ a = 1 := by
      rw [inv_pow, mul_inv_cancel₀ (pow_ne_zero a (fftOmega_ne_zero P))]
    rw [h1]
    simp
  · rw [if_neg hab]
    have hωP : fftOmega P ^ P = 1 := fftOmega_pow_self P hP
    have hωiP : ((fftOmega P)⁻¹) ^ P = 1 := by rw [inv_pow, hωP, inv_one]
    have hζP : ((fftOmega P) ^ a * ((fftOmega P)⁻¹) ^ b) ^ P = 1 := by
      rw [mul_pow, pow_right_comm, hωP, one_pow, pow_right_comm, hωiP, one_pow,
        mul_one]
    have hζ1 : (fftOmega P) ^ a * ((fftOmega P)⁻¹) ^ b ≠ 1 := by
      intro h1
      apply hab
      refine (fftOmega_isPrimitiveRoot P hP).pow_inj ha hb ?_
      rw [inv_pow] at h1
      exact (mul_inv_eq_one₀ (pow_ne_zero b (fftOmega_ne_zero P))).mp h1
    rw [geom_sum_eq hζ1, hζP]
    simp

/-- DFT inversion: the unnormalized inverse of the forward transform
returns P times the input, at every index below P. -/
lemma dft_inversion (P : Nat) (hP : P ≠ 0) (x : Nat → ℂ) (i : Nat) (hi : i < P) :
    dftInverse P (dftForward P x) i = P * x i := by
  simp only [dftInverse, dftForward]
  have step1 : ∀ k, (∑ j ∈ Finset.range P, x j * ((fftOmega P)⁻¹) ^ (j * k))
        * (fftOmega P) ^ (i * k)
      = ∑ j ∈ Finset.range P,
          x j * (((fftOmega P) ^ i * ((fftOmega P)⁻¹) ^ j) ^ k) := by
    intro k
    rw [Finset.sum_mul]
    apply Finset.sum_congr rfl
    intro j _
    rw [mul_pow, ← pow_mul, ← pow_mul]
    ring
  rw [Finset.sum_congr rfl fun k _ => step1 k, Finset.sum_comm]
  have step2 : ∀ j ∈ Finset.range P,
      (∑ k ∈ Finset.range P,
          x j * (((fftOmega P) ^ i * ((fftOmega P)⁻¹) ^ j) ^ k))
        = x j * (if i = j then (P : ℂ) else 0) := by
    intro j hj
    rw [← Finset.mul_sum, fftOmega_orth P hP i j hi (Finset.mem_range.mp hj)]
  rw [Finset.sum_congr rfl step2]
  rw [Finset.sum_eq_single i]
  · rw [if_pos rfl]
    ring
  · intro b _ hbi
    rw [if_neg fun h => hbi h.symm, mul_zero]
  · intro hnot
    exact absurd (Finset.mem_range.mpr hi) hnot

/-- Plancherel identity for the forward DFT: total spectral energy is P
times the total signal energy. -/
lemma dft_parseval (P : Nat) (hP : P ≠ 0) (x : Nat → ℂ) :
    ∑ k ∈ Finset.range P, ((Complex.normSq (dftForward P x k) : ℝ) : ℂ)
      = (P : ℂ) * ∑ j ∈ Finset.range P, ((Complex.normSq (x j) : ℝ) : ℂ) := by
  have expand : ∀ k, ((Complex.normSq (dftForward P x k) : ℝ) : ℂ)
      = ∑ j ∈ Finset.range P, ∑ m ∈ Finset.range P,
          x j * (starRingEnd ℂ) (x m)
            * (((fftOmega P) ^ m * ((fftOmega P)⁻¹) ^ j) ^ k) := by
    intro k
    rw [← Complex.mul_conj, dftForward, map_sum, Finset.sum_mul_sum]
    apply Finset.sum_congr rfl
    intro j _
    apply Finset.sum_congr rfl
    intro m _
    rw [map_mul, conj_fftOmega_inv_pow, mul_pow, ← pow_mul, ← pow_mul]
    ring
  rw [Finset.sum_congr rfl fun k _ => expand k, Finset.sum_comm]
  have step2 : ∀ j ∈ Finset.range P,
      (∑ k ∈ Finset.range P, ∑ m ∈ Finset.range P,
          x j * (starRingEnd ℂ) (x m)
            * (((fftOmega P) ^ m * ((fftOmega P)⁻¹) ^ j) ^ k))
        = (P : ℂ) * ((Complex.normSq (x j) : ℝ) : ℂ) := by
    intro j hj
    rw [Finset.sum_comm]
    have inner : ∀ m ∈ Finset.range P,
        (∑ k ∈ Finset.range P,
            x j * (starRingEnd ℂ) (x m)
              * (((fftOmega P) ^ m * ((fftOmega P)⁻¹) ^ j) ^ k))
          = x j * (starRingEnd ℂ) (x m) * (if m = j then (P : ℂ) else 0) := by
      intro m hm
      rw [← Finset.mul_sum,
        fftOmega_orth P hP m j (Finset.mem_range.mp hm) (Finset.mem_range.mp hj)]
    rw [Finset.sum_congr rfl inner, Finset.sum_eq_single j]
    · rw [if_pos rfl, Complex.mul_conj]
      ring
    · intro b _ hbj
      rw [if_neg hbj, mul_zero]
    · intro hnot
      exact absurd hj hnot
  rw [Finset.sum_congr rfl step2, ← Finset.mul_sum]

/-! ### Unfolding the harmonic pipeline -/

lemma getD_mapIdx {α β : Type} (l : List α) (f : Nat → α → β) (i : Nat) (d : β) (e : α)
    (h : i < l.length) :
    (l.mapIdx f).getD i d = f i (l.getD i e) := by
  rw [List.getD_eq_getElem?_getD, List.getElem?_mapIdx, List.getElem?_eq_getElem h]
  rw [List.getD_eq_getElem?_getD, List.getElem?_eq_getElem h]
  rfl

lemma performHarmonicAnalysis_length (history : List TimeSeriesPoint) :
    (performHarmonicAnalysis history).length = history.length := by
  simp only [performHarmonicAnalysis]
  exact List.length_mapIdx

/-- The seasonal field of the i-th output point is the real part of the
inverse DFT of the filtered spectrum, divided by the FFT size. -/
lemma performHarmonicAnalysis_seasonal (history : List TimeSeriesPoint) (i : Nat)
    (hi : i < history.length) :
    ((performHarmonicAnalysis history).getD i default).seasonal
      = (dftInverse (fftSize history.length)
            (cutoffFilter (fftSize history.length)
              (dftForward (fftSize history.length) (ndviSignal history))) i).re
          / (fftSize history.length : ℝ) := by
  simp only [performHarmonicAnalysis]
  rw [getD_mapIdx history _ i default default hi]

lemma ndviSignal_of_const (history : List TimeSeriesPoint) (v : ℝ)
    (hconst : ∀ pt ∈ history, pt.ndvi = v) (j : Nat) :
    ndviSignal history j = if j < history.length then ((v : ℝ) : ℂ) else 0 := by
  rw [ndviSignal]
  by_cases hj : j < history.length
  · rw [if_pos hj, getD_map_of_lt _ _ _ _ default (by simpa using hj)]
    rw [hconst _ (getD_mem_of_lt _ _ _ hj)]
  · rw [if_neg hj, List.getD_eq_default]
    · simp
    · simpa using not_lt.mp hj

lemma fftSize_two_le (n : Nat) : 2 ≤ fftSize n := le_max_left _ _

lemma length_le_fftSize (n : Nat) : n ≤ fftSize n :=
  le_trans (Nat.le_pow_clog (by norm_num) n) (le_max_right _ _)

lemma fftSize_le_16 (n : Nat) (h : n ≤ 16) : fftSize n ≤ 16 := by
  rw [fftSize]
  have h1 : Nat.clog 2 n ≤ 4 :=
    (Nat.le_pow_iff_clog_le (by norm_num)).mp (by omega)
  have h2 : 2 ^ Nat.clog 2 n ≤ 2 ^ 4 := Nat.pow_le_pow_right (by norm_num) h1
  omega

lemma fftSize_one : fftSize 1 = 2 := by
  rw [fftSize, show Nat.clog 2 1 = 0 by simp [Nat.clog]]
  decide

lemma fftSize_17 : fftSize 17 = 32 := by
  have h1 : Nat.clog 2 17 ≤ 5 :=
    (Nat.le_pow_iff_clog_le (by norm_num)).mp (by norm_num)
  have h2 : 4 < Nat.clog 2 17 :=
    (Nat.pow_lt_iff_lt_clog (by norm_num)).mp (by norm_num)
  rw [fftSize, show Nat.clog 2 17 = 5 by omega]
  decide

lemma performHarmonicAnalysis_nil : performHarmonicAnalysis [] = [] := by
  simp only [performHarmonicAnalysis]
  exact List.mapIdx_nil

/-- On a one-point series the pipeline replaces the seasonal estimate with
the point's own NDVI value: the FFT size is 2, the filter window
[10, 2 - 10) is empty, and the DC round trip returns the input. -/
lemma performHarmonicAnalysis_singleton (pt : TimeSeriesPoint) :
    performHarmonicAnalysis [pt] = [{ pt with seasonal := pt.ndvi }] := by
  have hlen : ([pt] : List TimeSeriesPoint).length = 1 := rfl
  have hx0 : ndviSignal [pt] 0 = ((pt.ndvi : ℝ) : ℂ) := by
    rw [ndviSignal]
    rfl
  have hx1 : ndviSignal [pt] 1 = 0 := by
    rw [ndviSignal, List.getD_eq_default]
    · simp
    · simp
  have hX : ∀ k, dftForward 2 (ndviSignal [pt]) k = ((pt.ndvi : ℝ) : ℂ) := by
    intro k
    rw [dftForward, Finset.sum_range_succ, Finset.sum_range_one, hx0, hx1,
      Nat.zero_mul, pow_zero, mul_one, zero_mul, add_zero]
  have hY : ∀ k, cutoffFilter 2 (dftForward 2 (ndviSignal [pt])) k
      = dftForward 2 (ndviSignal [pt]) k := by
    intro k
    rw [cutoffFilter, if_neg]
    rintro ⟨h10, hlt⟩
    omega
  have hinv : dftInverse 2 (cutoffFilter 2 (dftForward 2 (ndviSignal [pt]))) 0
      = 2 * ((pt.ndvi : ℝ) : ℂ) := by
    rw [dftInverse, Finset.sum_range_succ, Finset.sum_range_one, hY, hY, hX, hX,
      Nat.zero_mul, pow_zero, mul_one]
    ring
  simp only [performHarmonicAnalysis]
  rw [List.mapIdx_cons, List.mapIdx_nil, hlen, fftSize_one, hinv]
  have hre : (2 * ((pt.ndvi : ℝ) : ℂ)).re / ((2 : Nat) : ℝ) = pt.ndvi := by
    rw [show (2 : ℂ) * ((pt.ndvi : ℝ) : ℂ) = (((2 * pt.ndvi : ℝ)) : ℂ) by push_cast; ring,
      Complex.ofReal_re]
    push_cast
    ring
  rw [hre]

/-! ### Claim C9 -/

/-- C9 (amended): the pipeline has no early return for short series.  A
length-0 series is returned unchanged (the map over it is empty), but a
length-1 series is NOT returned unchanged: its seasonal estimate is
replaced by the point's own NDVI value (the length-2 transform is an exact
DC round trip), so the output differs from the input whenever the stored
seasonal estimate differs from the observed value. -/
theorem performHarmonicAnalysis_short_series :
    performHarmonicAnalysis [] = [] ∧
    ∀ pt : TimeSeriesPoint,
      performHarmonicAnalysis [pt] = [{ pt with seasonal := pt.ndvi }] :=
  ⟨performHarmonicAnalysis_nil, performHarmonicAnalysis_singleton⟩

/-- Counterexample to C9 as stated: a length-1 series whose stored seasonal
estimate (5) differs from its NDVI value (1) is not returned unchanged. -/
theorem performHarmonicAnalysis_short_series_cex :
    performHarmonicAnalysis [TimeSeriesPoint.mk "2023-01-01" 1 0 5 0]
      ≠ [TimeSeriesPoint.mk "2023-01-01" 1 0 5 0] := by
  rw [performHarmonicAnalysis_singleton]
  intro h
  have h5 := congrArg (fun l : List TimeSeriesPoint => (l.getD 0 default).seasonal) h
  simp only [List.getD_cons_zero] at h5
  norm_num at h5

/-! ### Claim C4 -/

/-- C4 (amended): for a constant-valued series of length at least 4, the
seasonal estimate equals the constant at every index, exactly, provided the
length is at most 16 (the filter window [10, P-10) is then empty) or a
power of two (no zero padding, so the padded signal is pure DC).  With zero
padding and an active filter (for example length 17) the recovery fails,
see the counterexample. -/
theorem performHarmonicAnalysis_constant_recovery (history : List TimeSeriesPoint)
    (v : ℝ) (hconst : ∀ pt ∈ history, pt.ndvi = v)
    (hlen : 4 ≤ history.length)
    (hgood : history.length ≤ 16 ∨ ∃ m, history.length = 2 ^ m) :
    ∀ i, i < history.length →
      ((performHarmonicAnalysis history).getD i default).seasonal = v := by
  intro i hi
  have hP2 : 2 ≤ fftSize history.length := fftSize_two_le _
  have hP0 : fftSize history.length ≠ 0 := by omega
  have hnP : history.length ≤ fftSize history.length := length_le_fftSize _
  have hx := ndviSignal_of_const history v hconst
  have hfilt : ∀ k, cutoffFilter (fftSize history.length)
        (dftForward (fftSize history.length) (ndviSignal history)) k
      = dftForward (fftSize history.length) (ndviSignal history) k := by
    rcases hgood with h16 | ⟨m, hm⟩
    · intro k
      have hP16 : fftSize history.length ≤ 16 := fftSize_le_16 _ h16
      rw [cutoffFilter, if_neg]
      rintro ⟨h10, hlt⟩
      omega
    · intro k
      have hPn : fftSize history.length = history.length := by
        rw [hm, fftSize, Nat.clog_pow 2 m (by norm_num)]
        have h4 : 4 ≤ 2 ^ m := hm ▸ hlen
        exact Nat.max_eq_right (by omega)
      by_cases hk0 : k = 0
      · subst hk0
        rw [cutoffFilter, if_neg]
        rintro ⟨h10, -⟩
        omega
      · by_cases hkP : k < fftSize history.length
        · have hXk : dftForward (fftSize history.length) (ndviSignal history) k
              = 0 := by
            rw [dftForward]
            have hterm : ∀ j ∈ Finset.range (fftSize history.length),
                ndviSignal history j
                    * ((fftOmega (fftSize history.length))⁻¹) ^ (j * k)
                  = ((v : ℝ) : ℂ)
                    * (((fftOmega (fftSize history.length))⁻¹) ^ k) ^ j := by
              intro j hj
              rw [hx j, if_pos (by rw [← hPn]; exact Finset.mem_range.mp hj),
                mul_comm j k, pow_mul]
            rw [Finset.sum_congr rfl hterm, ← Finset.mul_sum]
            have hζ1 : ((fftOmega (fftSize history.length))⁻¹) ^ k ≠ 1 := by
              intro h1
              apply hk0
              rw [inv_pow, inv_eq_one] at h1
              exact (fftOmega_isPrimitiveRoot _ hP0).pow_inj hkP
                (Nat.pos_of_ne_zero hP0) (by rw [h1, pow_zero])
            have hζP : (((fftOmega (fftSize history.length))⁻¹) ^ k)
                ^ (fftSize history.length) = 1 := by
              rw [pow_right_comm, inv_pow, fftOmega_pow_self _ hP0, inv_one,
                one_pow]
            rw [geom_sum_eq hζ1, hζP]
            simp
          rw [cutoffFilter]
          split
          · rw [hXk]
          · rfl
        · rw [cutoffFilter, if_neg]
          rintro ⟨h10, hlt⟩
          omega
  have hinv : dftInverse (fftSize history.length)
        (cutoffFilter (fftSize history.length)
          (dftForward (fftSize history.length) (ndviSignal history))) i
      = dftInverse (fftSize history.length)
        (dftForward (fftSize history.length) (ndviSignal history)) i := by
    rw [dftInverse, dftInverse]
    apply Finset.sum_congr rfl
    intro k _
    rw [hfilt k]
  rw [performHarmonicAnalysis_seasonal history i hi, hinv,
    dft_inversion _ hP0 _ i (lt_of_lt_of_le hi hnP), hx i, if_pos hi]
  have hcast : ((fftSize history.length : ℂ) * ((v : ℝ) : ℂ))
      = (((fftSize history.length : ℝ) * v : ℝ) : ℂ) := by
    push_cast
    ring
  rw [hcast, Complex.ofReal_re]
  have hPne : (fftSize history.length : ℝ) ≠ 0 := by
    exact_mod_cast hP0
  field_simp

/-- Witness for C4 at the constant-1 series of length 4. -/
theorem performHarmonicAnalysis_constant_recovery_witness :
    (∀ pt ∈ List.replicate 4 (TimeSeriesPoint.mk "2023-01-01" 1 0 0 0),
        pt.ndvi = 1) ∧
    4 ≤ (List.replicate 4 (TimeSeriesPoint.mk "2023-01-01" 1 0 0 0)).length ∧
    ((List.replicate 4 (TimeSeriesPoint.mk "2023-01-01" 1 0 0 0)).length ≤ 16 ∨
      ∃ m, (List.replicate 4 (TimeSeriesPoint.mk "2023-01-01" 1 0 0 0)).length
        = 2 ^ m) ∧
    ((performHarmonicAnalysis
        (List.replicate 4 (TimeSeriesPoint.mk "2023-01-01" 1 0 0 0))).getD 0
      default).seasonal = 1 :=
  ⟨fun pt hpt => by rw [List.eq_of_mem_replicate hpt], by simp, Or.inl (by simp),
    performHarmonicAnalysis_constant_recovery _ 1
      (fun pt hpt => by rw [List.eq_of_mem_replicate hpt]) (by simp)
      (Or.inl (by simp)) 0 (by simp)⟩

lemma fftOmega_32_pow_16 : (fftOmega 32) ^ 16 = -1 := by
  rw [fftOmega, ← Complex.exp_nat_mul]
  rw [show ((16 : Nat) : ℂ) * (2 * (Real.pi : ℂ) * Complex.I / ((32 : Nat) : ℂ))
      = (Real.pi : ℂ) * Complex.I by push_cast; ring]
  exact Complex.exp_pi_mul_I

/-- The heart of the C4 counterexample: on any constant-1 series of length
17 (padded to 32, filter active on bins 10..21), the seasonal estimates
cannot all equal 1, because the sum of the first 17 output values equals
the kept spectral energy divided by 32, and the cut bins carry energy at
least normSq of bin 16, which is 1. -/
lemma constant17_not_recovered (hist : List TimeSeriesPoint)
    (hlen : hist.length = 17) (hconst : ∀ q ∈ hist, q.ndvi = (1 : ℝ)) :
    ¬ ∀ i, i < hist.length →
        ((performHarmonicAnalysis hist).getD i default).seasonal = 1 := by
  intro H
  have hx : ∀ j, ndviSignal hist j = if j < 17 then (1 : ℂ) else 0 := by
    intro j
    rw [ndviSignal_of_const hist 1 hconst j, hlen]
    split
    · simp
    · rfl
  have hfft : fftSize hist.length = 32 := by rw [hlen]; exact fftSize_17
  have Hre : ∀ i, i < 17 →
      (dftInverse 32 (cutoffFilter 32 (dftForward 32 (ndviSignal hist))) i).re
        = 32 := by
    intro i hi
    have h1 := H i (by omega)
    rw [performHarmonicAnalysis_seasonal hist i (by omega), hfft] at h1
    rw [div_eq_one_iff_eq (by norm_num)] at h1
    exact_mod_cast h1
  have hXk : ∀ k, dftForward 32 (ndviSignal hist) k
      = ∑ j ∈ Finset.range 17, ((fftOmega 32)⁻¹) ^ (j * k) := by
    intro k
    rw [dftForward]
    calc ∑ j ∈ Finset.range 32,
          ndviSignal hist j * ((fftOmega 32)⁻¹) ^ (j * k)
        = ∑ j ∈ Finset.range 17,
            ndviSignal hist j * ((fftOmega 32)⁻¹) ^ (j * k) := by
          refine (Finset.sum_subset
            (Finset.range_subset.mpr (by norm_num)) ?_).symm
          intro j _ hnj
          rw [hx j, if_neg (by simpa using hnj), zero_mul]
      _ = ∑ j ∈ Finset.range 17, ((fftOmega 32)⁻¹) ^ (j * k) := by
          apply Finset.sum_congr rfl
          intro j hj
          rw [hx j, if_pos (Finset.mem_range.mp hj), one_mul]
  have hconjX : ∀ k, (starRingEnd ℂ) (dftForward 32 (ndviSignal hist) k)
      = ∑ i ∈ Finset.range 17, ((fftOmega 32) ^ k) ^ i := by
    intro k
    rw [hXk, map_sum]
    apply Finset.sum_congr rfl
    intro j _
    rw [conj_fftOmega_inv_pow, mul_comm j k, pow_mul]
  have hS : ∑ i ∈ Finset.range 17,
        dftInverse 32 (cutoffFilter 32 (dftForward 32 (ndviSignal hist))) i
      = ∑ k ∈ Finset.range 32,
          cutoffFilter 32 (dftForward 32 (ndviSignal hist)) k
            * (starRingEnd ℂ) (dftForward 32 (ndviSignal hist) k) := by
    simp only [dftInverse]
    rw [Finset.sum_comm]
    apply Finset.sum_congr rfl
    intro k _
    rw [← Finset.mul_sum]
    congr 1
    rw [hconjX k]
    apply Finset.sum_congr rfl
    intro i _
    rw [mul_comm i k, pow_mul]
  have hterm : ∀ k, cutoffFilter 32 (dftForward 32 (ndviSignal hist)) k
        * (starRingEnd ℂ) (dftForward 32 (ndviSignal hist) k)
      = if 10 ≤ k ∧ k < 32 - 10 then 0
        else ((Complex.normSq (dftForward 32 (ndviSignal hist) k) : ℝ) : ℂ) := by
    intro k
    rw [cutoffFilter]
    split
    · rw [zero_mul]
    · rw [Complex.mul_conj]
  have hSre : (∑ i ∈ Finset.range 17,
        dftInverse 32 (cutoffFilter 32 (dftForward 32 (ndviSignal hist))) i).re
      = ∑ k ∈ Finset.range 32,
          (if 10 ≤ k ∧ k < 32 - 10 then (0 : ℝ)
           else Complex.normSq (dftForward 32 (ndviSignal hist) k)) := by
    rw [hS, Complex.re_sum]
    apply Finset.sum_congr rfl
    intro k _
    rw [hterm k]
    split
    · simp
    · exact Complex.ofReal_re _
  have hleft : (∑ i ∈ Finset.range 17,
        dftInverse 32 (cutoffFilter 32 (dftForward 32 (ndviSignal hist))) i).re
      = 544 := by
    rw [Complex.re_sum]
    calc ∑ i ∈ Finset.range 17,
          (dftInverse 32 (cutoffFilter 32 (dftForward 32 (ndviSignal hist))) i).re
        = ∑ _i ∈ Finset.range 17, (32 : ℝ) :=
          Finset.sum_congr rfl fun i hi => Hre i (Finset.mem_range.mp hi)
      _ = 544 := by rw [Finset.sum_const, Finset.card_range]; norm_num
  have htotal : ∑ k ∈ Finset.range 32,
        Complex.normSq (dftForward 32 (ndviSignal hist) k) = 544 := by
    have hc := dft_parseval 32 (by norm_num) (ndviSignal hist)
    have hxn : ∑ j ∈ Finset.range 32, ((Complex.normSq (ndviSignal hist j) : ℝ) : ℂ)
        = (17 : ℂ) := by
      calc ∑ j ∈ Finset.range 32, ((Complex.normSq (ndviSignal hist j) : ℝ) : ℂ)
          = ∑ j ∈ Finset.range 32, (if j < 17 then (1 : ℂ) else 0) := by
            apply Finset.sum_congr rfl
            intro j _
            rw [hx j]
            split
            · simp
            · simp
        _ = ∑ j ∈ Finset.range 17, (if j < 17 then (1 : ℂ) else 0) := by
            refine (Finset.sum_subset
              (Finset.range_subset.mpr (by norm_num)) ?_).symm
            intro j _ hnj
            exact if_neg (by simpa using hnj)
        _ = ∑ j ∈ Finset.range 17, (1 : ℂ) :=
            Finset.sum_congr rfl fun j hj => if_pos (Finset.mem_range.mp hj)
        _ = (17 : ℂ) := by simp
    rw [hxn] at hc
    have hcast : ((∑ k ∈ Finset.range 32,
          Complex.normSq (dftForward 32 (ndviSignal hist) k) : ℝ) : ℂ)
        = ((544 : ℝ) : ℂ) := by
      rw [Complex.ofReal_sum, hc]
      norm_num
    exact_mod_cast hcast
  have hX16 : dftForward 32 (ndviSignal hist) 16 = 1 := by
    rw [hXk 16]
    have hm1 : ((fftOmega 32)⁻¹) ^ 16 = -1 := by
      rw [inv_pow, fftOmega_32_pow_16]
      norm_num
    calc ∑ j ∈ Finset.range 17, ((fftOmega 32)⁻¹) ^ (j * 16)
        = ∑ j ∈ Finset.range 17, (-1 : ℂ) ^ j := by
          apply Finset.sum_congr rfl
          intro j _
          rw [mul_comm j 16, pow_mul, hm1]
      _ = 1 := by rw [neg_one_geom_sum, if_neg (by decide)]
  have hcut : (1 : ℝ) ≤ ∑ k ∈ Finset.range 32,
      (if 10 ≤ k ∧ k < 32 - 10
       then Complex.normSq (dftForward 32 (ndviSignal hist) k) else 0) := by
    have hsingle := Finset.single_le_sum
      (f := fun k => if 10 ≤ k ∧ k < 32 - 10
        then Complex.normSq (dftForward 32 (ndviSignal hist) k) else 0)
      (fun i _ => by
        dsimp only
        split
        · exact Complex.normSq_nonneg _
        · exact le_refl 0)
      (Finset.mem_range.mpr (by norm_num : (16 : Nat) < 32))
    dsimp only at hsingle
    rw [if_pos (by norm_num), hX16, Complex.normSq_one] at hsingle
    exact hsingle
  have hsplit : ∑ k ∈ Finset.range 32,
        (if 10 ≤ k ∧ k < 32 - 10 then (0 : ℝ)
         else Complex.normSq (dftForward 32 (ndviSignal hist) k))
      = (∑ k ∈ Finset.range 32,
          Complex.normSq (dftForward 32 (ndviSignal hist) k))
        - ∑ k ∈ Finset.range 32,
            (if 10 ≤ k ∧ k < 32 - 10
             then Complex.normSq (dftForward 32 (ndviSignal hist) k) else 0) := by
    rw [← Finset.sum_sub_distrib]
    apply Finset.sum_congr rfl
    intro k _
    split
    · simp
    · simp
  have hfinal : (544 : ℝ) = 544
      - ∑ k ∈ Finset.range 32,
          (if 10 ≤ k ∧ k < 32 - 10
           then Complex.normSq (dftForward 32 (ndviSignal hist) k) else 0) := by
    calc (544 : ℝ)
        = (∑ i ∈ Finset.range 17,
            dftInverse 32 (cutoffFilter 32 (dftForward 32 (ndviSignal hist))) i).re :=
          hleft.symm
      _ = ∑ k ∈ Finset.range 32,
            (if 10 ≤ k ∧ k < 32 - 10 then (0 : ℝ)
             else Complex.normSq (dftForward 32 (ndviSignal hist) k)) := hSre
      _ = (∑ k ∈ Finset.range 32,
            Complex.normSq (dftForward 32 (ndviSignal hist) k))
          - ∑ k ∈ Finset.range 32,
              (if 10 ≤ k ∧ k < 32 - 10
               then Complex.normSq (dftForward 32 (ndviSignal hist) k) else 0) :=
          hsplit
      _ = 544
          - ∑ k ∈ Finset.range 32,
              (if 10 ≤ k ∧ k < 32 - 10
               then Complex.normSq (dftForward 32 (ndviSignal hist) k) else 0) := by
          rw [htotal]
  linarith

/-- Counterexample to C4 as stated: the constant-1 series of length 17 (at
least 4) does not have its constant recovered at every index. -/
theorem performHarmonicAnalysis_constant_recovery_cex :
    ¬ ∀ i, i < (List.replicate 17 (TimeSeriesPoint.mk "2023-01-01" 1 0 0 0)).length →
        ((performHarmonicAnalysis
            (List.replicate 17 (TimeSeriesPoint.mk "2023-01-01" 1 0 0 0))).getD i
          default).seasonal = 1 :=
  constant17_not_recovered _ (by simp)
    (fun q hq => by rw [List.eq_of_mem_replicate hq])

end OranDrishti
